import Mathlib

/-!
Shallow embedding of the simple_shell command-resolution and dispatch
pipeline.  The functions defined in src/main.c and src/print_env_error.c
are translated directly; collaborator functions that those files call but
whose definitions lie outside src/ (the line reader, comment filter,
operator splitter, tokenizer, dispatcher and error reporter) are modelled
from the specification and are each marked `Modelled from the spec:`.
-/

namespace SimpleShell

/-- Delimiter characters passed by `handle_command_exec` to
`tokenize_command` (src/main.c line 171: the string of space, tab,
newline). -/
def DELIMS : List Char := [' ', '\t', '\n']

/-- One step of splitting a character list into runs: a delimiter opens a
new (possibly empty) group in front, a non-delimiter extends the front
group. -/
def addChar (isDelim : Char → Bool) (c : Char) (acc : List (List Char)) :
    List (List Char) :=
  if isDelim c then [] :: acc
  else
    match acc with
    | [] => [[c]]
    | g :: gs => (c :: g) :: gs

/-- Split a character list on runs of delimiter characters, dropping the
empty groups, so that consecutive delimiters count as one boundary. -/
def splitRuns (isDelim : Char → Bool) (cs : List Char) : List (List Char) :=
  (cs.foldr (addChar isDelim) []).filter (fun g => !g.isEmpty)

/-- Modelled from the spec: `tokenize_command` (called from src/main.c
line 171, defined outside src/).  Spec 4.3: splits a Segment on runs of
whitespace and strips a trailing newline; "Empty/whitespace-only segments
produce no TokenVector."  The `allocOk` oracle models spec 7: an
allocation failure makes the tokenizer yield no TokenVector (a NULL array
in the source), so the command line is skipped. -/
def tokenize_command (cmd_line : String) (delims : List Char)
    (allocOk : Bool) : Option (List String) :=
  if !allocOk then none
  else if ((splitRuns (fun c => delims.contains c) cmd_line.toList).map
      (fun g => String.mk g)).isEmpty then none
  else some ((splitRuns (fun c => delims.contains c) cmd_line.toList).map
    (fun g => String.mk g))

/-- Modelled from the spec: `check_for_comments` (called from src/main.c
line 87, defined outside src/).  Spec 4.1: a comment begins at the first
bare hash mark, with no quoting awareness; the flag tells the caller a
comment is present so that a comment-only line is not confused with end of
input.  A missing line (the reader returned NULL at end of input) carries
no comment. -/
def check_for_comments : Option String → Int
  | none => 0
  | some s => if s.toList.contains '#' then 1 else 0

/-- Modelled from the spec: `handle_comments` (called from src/main.c
line 90, defined outside src/).  Spec 4.1: returns the line with the
comment portion removed, i.e. everything before the first hash mark. -/
def handle_comments (s : String) : String :=
  String.mk (s.toList.takeWhile (fun c => c != '#'))

/-- Result of one call to the line-reader collaborator (spec 6): the next
raw line, or end of input (`read_command` returning NULL). -/
inductive ReadEvent where
  | line (s : String)
  | eof
deriving DecidableEq, Repr

/-- src/main.c lines 77-93: read a line (from the script file or stdin),
set the comment flag, and strip the comment when the flag is 1. -/
def read_and_handle_comments (ev : ReadEvent) : Option String × Int :=
  let cmd_line : Option String :=
    match ev with
    | .line s => some s
    | .eof => none
  let is_comment := check_for_comments cmd_line
  ((if is_comment = 1 then cmd_line.map handle_comments else cmd_line),
    is_comment)

/-- An observable action of `handle_exit`, listed in the order the source
performs them. -/
inductive ExitAction where
  | closeFile
  | newline
  | exitProc (code : Int)
deriving DecidableEq, Repr

/-- src/main.c lines 111-133: close the script file if one is open, print
a newline when the flag `is_comment` is zero and standard input is a
terminal, free the environment buffer, and unconditionally terminate the
process with `exit(*exit_status)`. -/
def handle_exit (is_comment : Int) (exit_status : Int) (fileOpen : Bool)
    (interactive : Bool) : List ExitAction :=
  (if fileOpen then [ExitAction.closeFile] else []) ++
  (if is_comment = 0 then
    (if interactive then [ExitAction.newline] else []) else []) ++
  [ExitAction.exitProc exit_status]

/-- A chaining operator (spec 2, 4.2). -/
inductive ChainOp where
  | seq
  | andOp
  | orOp
deriving DecidableEq, Repr

/-- Modelled from the spec: the Operator Splitter scan (spec 4.2, outside
src/) — split a character list at the operators `;`, `&&`, `||`, left to
right.  Returns the first segment together with the list of (operator,
following segment) pairs. -/
def splitOps : List Char → List Char × List (ChainOp × List Char)
  | [] => ([], [])
  | [c] =>
    if c = ';' then ([], [(ChainOp.seq, [])]) else ([c], [])
  | c :: c2 :: rest2 =>
    if c = ';' then
      let p := splitOps (c2 :: rest2)
      ([], (ChainOp.seq, p.1) :: p.2)
    else if (c = '&' ∨ c = '|') ∧ c2 = c then
      let p := splitOps rest2
      ([], ((if c = '&' then ChainOp.andOp else ChainOp.orOp), p.1) :: p.2)
    else
      let p := splitOps (c2 :: rest2)
      (c :: p.1, p.2)

/-- Modelled from the spec: `check_for_operator` (called from src/main.c
line 162, defined outside src/).  Reports the first chaining operator
present in the line, or none. -/
def check_for_operator (cmd_line : String) : Option ChainOp :=
  match (splitOps cmd_line.toList).2 with
  | [] => none
  | (op, _) :: _ => some op

/-- The Environment Table (spec 3): a mapping of names to values with
unique names. -/
abbrev EnvTable := List (String × String)

/-- The SessionState of spec 3: last exit status, current command index,
the environment handle, whether a script file is open, and whether input
is a terminal. -/
structure SessionState where
  exit_status : Int
  cmd_idx : Nat
  env : EnvTable
  fileOpen : Bool
  interactive : Bool
deriving DecidableEq, Repr

/-- Result of dispatching one token vector (spec 4.6): the session
continues with a new exit status and environment, or the explicit exit
built-in terminates the shell. -/
inductive DispatchResult where
  | cont (status : Int) (env : EnvTable)
  | exitShell (code : Int)
deriving DecidableEq, Repr

/-- The Dispatcher collaborator abstracted (the bodies of
`process_command` and of the execution inside `handle_operators` lie
outside src/): token vector and session state in, a `DispatchResult`
out. -/
abbrev Dispatch := List String → SessionState → DispatchResult

/-- A pipeline stage event, used to state ordering properties of the data
flow of spec 2. -/
inductive Ev where
  | filterStage
  | opCheck
  | tokenizeStage
  | dispatch (toks : List String)
deriving DecidableEq, Repr

/-- Outcome of one pipeline stage: continue with a state, or the shell
exited through the exit built-in. -/
inductive StepOut where
  | cont (st : SessionState)
  | exited (code : Int)
deriving DecidableEq, Repr

/-- Modelled from the spec: `process_command` (called from src/main.c
line 174, defined outside src/).  Spec 4.6: apply the Dispatcher to a
TokenVector; the Dispatcher alone updates the exit status and environment
or terminates the shell. -/
def process_command (d : Dispatch) (cmd : List String) (st : SessionState) :
    StepOut :=
  match d cmd st with
  | .cont s e => .cont { st with exit_status := s, env := e }
  | .exitShell c => .exited c

/-- Spec 4.2 gate: decide from the previous exit status whether the
segment after the given operator runs. -/
def gate (op : ChainOp) (status : Int) : Bool :=
  match op with
  | .seq => true
  | .andOp => status == 0
  | .orOp => status != 0

/-- Modelled from the spec: run one operator-selected segment — tokenize
it (a whitespace-only segment, or an allocation failure, yields no
TokenVector and the segment is skipped without a status reset), then
dispatch. -/
def run_segment (d : Dispatch) (allocOk : Bool) (seg : List Char)
    (st : SessionState) : StepOut × List Ev :=
  match tokenize_command (String.mk seg) DELIMS allocOk with
  | none => (.cont st, [Ev.tokenizeStage])
  | some toks => (process_command d toks st,
      [Ev.tokenizeStage, Ev.dispatch toks])

/-- Modelled from the spec (spec 4.2): execute the operator-gated part of
a chain left to right; each gate is evaluated with the exit status in
force immediately before its segment, i.e. the status actually produced by
the previously executed segment. -/
def run_chain (d : Dispatch) (allocOk : Bool) :
    List (ChainOp × List Char) → SessionState → StepOut × List Ev
  | [], st => (.cont st, [])
  | (op, seg) :: rest, st =>
    if gate op st.exit_status then
      match run_segment d allocOk seg st with
      | (.exited c, evs) => (.exited c, evs)
      | (.cont st', evs) =>
        let p := run_chain d allocOk rest st'
        (p.1, evs ++ p.2)
    else run_chain d allocOk rest st

/-- Modelled from the spec (spec 4.2): a chain whose first segment is
empty (the line begins with an operator) or whose last segment is empty
(the line ends in an operator) is a syntax condition: it is reported, a
non-zero exit status is set (the spec fixes only that it is non-zero), and
the chain is aborted without executing a malformed segment. -/
def chain_syntax_error (first : List Char)
    (chain : List (ChainOp × List Char)) : Bool :=
  match chain with
  | [] => false
  | _ =>
    ((splitRuns (fun c => DELIMS.contains c) first).isEmpty) ||
    (match chain.getLast? with
     | some pr => (splitRuns (fun c => DELIMS.contains c) pr.2).isEmpty
     | none => false)

/-- Modelled from the spec: `handle_operators` (called from src/main.c
line 166, defined outside src/).  Split the line at the operators, check
the malformed-placement syntax condition, then run the first segment
followed by the gated chain. -/
def handle_operators (d : Dispatch) (allocOk : Bool) (cmd_line : String)
    (st : SessionState) : StepOut × List Ev :=
  if chain_syntax_error (splitOps cmd_line.toList).1
      (splitOps cmd_line.toList).2 then
    (.cont { st with exit_status := 2 }, [])
  else
    match run_segment d allocOk (splitOps cmd_line.toList).1 st with
    | (.exited c, evs) => (.exited c, evs)
    | (.cont st', evs) =>
      ((run_chain d allocOk (splitOps cmd_line.toList).2 st').1,
        evs ++ (run_chain d allocOk (splitOps cmd_line.toList).2 st').2)

/-- src/main.c lines 156-176: check for an operator; when one is present,
delegate to `handle_operators`; otherwise tokenize the line (a NULL token
vector makes the function return without dispatching) and process the
command. -/
def handle_command_exec (d : Dispatch) (allocOk : Bool) (cmd_line : String)
    (st : SessionState) : StepOut × List Ev :=
  match check_for_operator cmd_line with
  | some _ =>
    let p := handle_operators d allocOk cmd_line st
    (p.1, Ev.opCheck :: p.2)
  | none =>
    match tokenize_command cmd_line DELIMS allocOk with
    | none => (.cont st, [Ev.opCheck, Ev.tokenizeStage])
    | some cmd =>
      (process_command d cmd st,
        [Ev.opCheck, Ev.tokenizeStage, Ev.dispatch cmd])

/-- Overall outcome of the session loop of src/main.c lines 39-51: the
process exits through `handle_exit` at a NULL line, or through the exit
built-in inside dispatch; `normalReturn` stands for falling through the
do/while to lines 52-59 of main.c (fclose, free_memory, return 0);
`outOfInput` is the artifact of modelling the reader by a finite event
list. -/
inductive Outcome where
  | exitedEof (acts : List ExitAction)
  | exitedBuiltin (code : Int)
  | normalReturn
  | outOfInput (st : SessionState)
deriving DecidableEq, Repr

/-- src/main.c lines 39-51: the do/while(1) session loop.  Each iteration
reads a line; a NULL line goes to `handle_exit`, otherwise the command
index is incremented and the line is handed to `handle_command_exec`,
whose resulting state feeds the next iteration. -/
def session (d : Dispatch) (allocOk : Bool) :
    List ReadEvent → SessionState → Outcome
  | [], st => .outOfInput st
  | ev :: rest, st =>
    match read_and_handle_comments ev with
    | (none, is_comment) =>
      .exitedEof (handle_exit is_comment st.exit_status st.fileOpen
        st.interactive)
    | (some l, _) =>
      let st1 := { st with cmd_idx := st.cmd_idx + 1 }
      match handle_command_exec d allocOk l st1 with
      | (.exited c, _) => .exitedBuiltin c
      | (.cont st', _) => session d allocOk rest st'

/-- The stage events of processing one read event (the data flow of
spec 2): the Comment Filter runs first; a non-NULL line then goes through
`handle_command_exec`. -/
def lineTrace (d : Dispatch) (allocOk : Bool) (ev : ReadEvent)
    (st : SessionState) : List Ev :=
  Ev.filterStage ::
    (match read_and_handle_comments ev with
     | (none, _) => []
     | (some l, _) =>
       (handle_command_exec d allocOk l
         { st with cmd_idx := st.cmd_idx + 1 }).2)

/-- Overall result of `main`: `startupFailure` models src/main.c lines
29-38 (print_file_error, free, exit(2)) taken before the loop; `loop` is
the session loop outcome. -/
inductive MainResult where
  | startupFailure (code : Int)
  | loop (out : Outcome)
deriving DecidableEq, Repr

/-- src/main.c lines 19-60: when a file argument is present, open it
(`fopenOk` is the oracle for `fopen` succeeding); on failure report and
exit with status 2 before the loop; otherwise enter the session loop with
exit status 0 and command index 0. -/
def shell_main (d : Dispatch) (allocOk : Bool) (argc : Nat) (fopenOk : Bool)
    (interactive : Bool) (env0 : EnvTable) (evs : List ReadEvent) :
    MainResult :=
  if 1 < argc then
    if fopenOk then
      .loop (session d allocOk evs
        { exit_status := 0, cmd_idx := 0, env := env0, fileOpen := true,
          interactive := interactive })
    else .startupFailure 2
  else
    .loop (session d allocOk evs
      { exit_status := 0, cmd_idx := 0, env := env0, fileOpen := false,
        interactive := interactive })

/-- Modelled from the spec (spec 6): the error-reporter collaborator
formats the shell name, command index, token vector and message to
standard error; the core depends on no return value.  Modelled as
producing the diagnostic record. -/
def print_shell_error (shell_name : String) (cmd_idx : Nat)
    (cmd : List String) (msg : String) :
    String × Nat × List String × String :=
  (shell_name, cmd_idx, cmd, msg)

/-- src/print_env_error.c lines 19-29: report the environment-operation
failure through the error reporter and return the exit status 2. -/
def print_env_error (cmd : List String) (shell_name : String)
    (cmd_idx : Nat) : Int :=
  let env_err_msg := "Unable to add/remove from environment"
  let exit_status : Int := 2
  let _ := print_shell_error shell_name cmd_idx cmd env_err_msg
  exit_status

/-- Insert or overwrite a name in the Environment Table (spec 3, 4.5:
names are unique; setting an existing name replaces its value). -/
def set_entry (t : EnvTable) (n v : String) : EnvTable :=
  if t.any (fun p => p.1 == n) then
    t.map (fun p => if p.1 == n then (n, v) else p)
  else t ++ [(n, v)]

/-- Remove a name from the Environment Table (spec 4.5). -/
def unset_entry (t : EnvTable) (n : String) : EnvTable :=
  t.filter (fun p => p.1 != n)

/-- Modelled from the spec (spec 4.5): the environment `set` operation
with an allocation oracle; on allocation failure the failure is reported
through `print_env_error` and the table is left in its prior, unmodified
state. -/
def env_set (t : EnvTable) (n v : String) (allocOk : Bool)
    (cmd : List String) (shell_name : String) (cmd_idx : Nat) :
    EnvTable × Int :=
  if allocOk then (set_entry t n v, 0)
  else (t, print_env_error cmd shell_name cmd_idx)

/-- Modelled from the spec (spec 4.5): the environment `unset` operation
with an allocation oracle; on allocation failure the failure is reported
through `print_env_error` and the table is left in its prior state. -/
def env_unset (t : EnvTable) (n : String) (allocOk : Bool)
    (cmd : List String) (shell_name : String) (cmd_idx : Nat) :
    EnvTable × Int :=
  if allocOk then (unset_entry t n, 0)
  else (t, print_env_error cmd shell_name cmd_idx)

/-- Modelled from the spec: a Dispatcher handling the environment
set/unset built-ins (spec 6), threading the allocation oracle of the
Environment Table. -/
def env_dispatch (envAllocOk : Bool) (shell_name : String) : Dispatch :=
  fun toks st =>
    match toks with
    | ["setenv", n, v] =>
      let p := env_set st.env n v envAllocOk toks shell_name st.cmd_idx
      .cont p.2 p.1
    | ["unsetenv", n] =>
      let p := env_unset st.env n envAllocOk toks shell_name st.cmd_idx
      .cont p.2 p.1
    | _ => .cont st.exit_status st.env

/-- A fixed sample Dispatcher used by concrete witnesses: every command
succeeds with exit status 7, leaving the environment unchanged. -/
def dSeven : Dispatch := fun _ st => DispatchResult.cont 7 st.env

/-- A fixed sample session state used by concrete witnesses. -/
def st0 : SessionState :=
  { exit_status := 0, cmd_idx := 0, env := [], fileOpen := false,
    interactive := true }

/-- C10: `print_env_error` returns 2 for every argument triple; its value
is independent of its inputs and in particular is never -1. -/
theorem print_env_error_constant :
    ∀ (cmd : List String) (sh : String) (i : Nat),
      print_env_error cmd sh i = 2 ∧ print_env_error cmd sh i ≠ -1 ∧
      ∀ (cmd' : List String) (sh' : String) (i' : Nat),
        print_env_error cmd sh i = print_env_error cmd' sh' i' :=
  fun _ _ _ => ⟨rfl, by simp [print_env_error], fun _ _ _ => rfl⟩

/-- C3: started with a script-file argument whose file cannot be opened,
the process reports and terminates with exit status 2; the session loop is
never entered. -/
theorem startup_fopen_failure (d : Dispatch) (allocOk : Bool) (argc : Nat)
    (interactive : Bool) (env0 : EnvTable) (evs : List ReadEvent)
    (hargc : 1 < argc) :
    shell_main d allocOk argc false interactive env0 evs =
      MainResult.startupFailure 2 ∧
    ∀ o, shell_main d allocOk argc false interactive env0 evs ≠
      MainResult.loop o := by
  have h2 : shell_main d allocOk argc false interactive env0 evs =
      MainResult.startupFailure 2 := by
    unfold shell_main
    rw [if_pos hargc]
    simp
  refine ⟨h2, fun o h => ?_⟩
  rw [h2] at h
  exact MainResult.noConfusion h

/-- Witness for C3 at a concrete startup configuration with two process
arguments. -/
theorem startup_fopen_failure_witness :
    shell_main dSeven true 2 false true [] [] =
      MainResult.startupFailure 2 :=
  (startup_fopen_failure dSeven true 2 true [] [] (by decide)).1

/-- C4: at end of input the session terminates through `handle_exit`,
which first closes the script file when one is open, then emits a trailing
newline exactly when the session is interactive, then exits carrying the
session's last exit status. -/
theorem eof_termination (d : Dispatch) (allocOk : Bool)
    (rest : List ReadEvent) (st : SessionState) :
    session d allocOk (ReadEvent.eof :: rest) st =
      Outcome.exitedEof
        ((if st.fileOpen then [ExitAction.closeFile] else []) ++
         (if st.interactive then [ExitAction.newline] else []) ++
         [ExitAction.exitProc st.exit_status]) := by
  simp [session, read_and_handle_comments, check_for_comments, handle_exit]

/-- C9: whenever the reader step yields a NULL line — for any value of the
comment flag — the loop's NULL branch produces the `handle_exit`
termination, whose last action is always the `exit` call carrying the
current exit status; and the session loop never reaches the statements
after the do/while (`normalReturn`). -/
theorem null_line_always_exits (d : Dispatch) (allocOk : Bool) :
    (∀ (ev : ReadEvent) (rest : List ReadEvent) (st : SessionState),
      (read_and_handle_comments ev).1 = none →
      session d allocOk (ev :: rest) st =
        Outcome.exitedEof (handle_exit (read_and_handle_comments ev).2
          st.exit_status st.fileOpen st.interactive)) ∧
    (∀ (ic s : Int) (fo ia : Bool),
      (handle_exit ic s fo ia).getLast? = some (ExitAction.exitProc s)) ∧
    (∀ (evs : List ReadEvent) (st : SessionState),
      session d allocOk evs st ≠ Outcome.normalReturn) := by
  refine ⟨?_, ?_, ?_⟩
  · intro ev rest st h
    rcases hrc : read_and_handle_comments ev with ⟨c, ic⟩
    cases c with
    | none => simp [session, hrc]
    | some l => rw [hrc] at h; simp at h
  · intro ic s fo ia
    by_cases hic : ic = 0 <;> cases fo <;> cases ia <;>
      simp [handle_exit, hic]
  · intro evs
    induction evs with
    | nil => intro st; simp [session]
    | cons ev rest ih =>
      intro st
      rcases hrc : read_and_handle_comments ev with ⟨c, ic⟩
      cases c with
      | none => simp [session, hrc]
      | some l =>
        rcases hh : handle_command_exec d allocOk l
            { st with cmd_idx := st.cmd_idx + 1 } with ⟨r, evts⟩
        cases r with
        | exited code => simp [session, hrc, hh]
        | cont st' => simp [session, hrc, hh]; exact ih st'

/-- Witness for C9 at a NULL read (end of input) in a non-interactive
session with no open file and exit status 3. -/
theorem null_line_always_exits_witness :
    session dSeven true [ReadEvent.eof]
      { exit_status := 3, cmd_idx := 0, env := [], fileOpen := false,
        interactive := false } =
      Outcome.exitedEof [ExitAction.exitProc 3] := by
  have h := (null_line_always_exits dSeven true).1 ReadEvent.eof []
    { exit_status := 3, cmd_idx := 0, env := [], fileOpen := false,
      interactive := false } rfl
  simpa [read_and_handle_comments, check_for_comments, handle_exit] using h

/-- A raw line that is comment-only: whitespace (spaces and tabs) followed
by a hash comment. -/
def commentOnly (s : String) : Prop :=
  ∃ w r, s.toList = w ++ '#' :: r ∧ ∀ c ∈ w, c = ' ' ∨ c = '\t'

/-- The comment filter keeps exactly the characters before the first hash
mark. -/
theorem takeWhile_until_hash (w r : List Char)
    (hw : ∀ c ∈ w, c = ' ' ∨ c = '\t') :
    (w ++ '#' :: r).takeWhile (fun c => c != '#') = w := by
  induction w with
  | nil => simp [List.takeWhile_cons]
  | cons c w ih =>
    have ih' := ih (fun x hx => hw x (List.mem_cons_of_mem _ hx))
    have hne : (c != '#') = true := by
      rcases hw c (List.mem_cons_self _ _) with hc | hc <;> subst hc <;> decide
    simp [List.takeWhile_cons, hne, ih']

/-- Splitting a list of delimiter characters into runs yields no group. -/
theorem splitRuns_all_delim (isD : Char → Bool) (w : List Char)
    (h : ∀ c ∈ w, isD c = true) : splitRuns isD w = [] := by
  induction w with
  | nil => rfl
  | cons c w ih =>
    have ih' := ih (fun x hx => h x (List.mem_cons_of_mem _ hx))
    have hc := h c (List.mem_cons_self _ _)
    simp only [splitRuns, List.foldr_cons] at ih' ⊢
    unfold addChar
    rw [if_pos hc]
    simpa [List.filter_cons] using ih'

/-- The operator splitter finds no operator in a whitespace-only line and
returns it as the single segment. -/
theorem splitOps_ws (w : List Char) (h : ∀ c ∈ w, c = ' ' ∨ c = '\t') :
    splitOps w = (w, []) := by
  induction w with
  | nil => rfl
  | cons c w ih =>
    have hc := h c (List.mem_cons_self _ _)
    have ih' := ih (fun x hx => h x (List.mem_cons_of_mem _ hx))
    cases w with
    | nil => rcases hc with hc | hc <;> subst hc <;> rfl
    | cons c2 w2 =>
      have h1 : ¬(c = ';') := by
        rcases hc with hc | hc <;> subst hc <;> decide
      have h2 : ¬((c = '&' ∨ c = '|') ∧ c2 = c) := by
        rintro ⟨hx | hx, -⟩ <;> rcases hc with hc | hc <;> subst hc <;>
          exact absurd hx (by decide)
      rw [splitOps, if_neg h1, if_neg h2]
      simp [ih']

/-- C1: a comment-only input line (whitespace then a hash comment) is
reported by the Comment Filter (flag 1), is not treated as end of input
(the filtered line is not NULL), produces no Dispatcher invocation in its
trace, and the session loop continues with the next read event. -/
theorem comment_only_line_continues (d : Dispatch) (rest : List ReadEvent)
    (st : SessionState) (s : String) (h : commentOnly s) :
    check_for_comments (some s) = 1 ∧
    (read_and_handle_comments (ReadEvent.line s)).1 ≠ none ∧
    (∀ toks, Ev.dispatch toks ∉ lineTrace d true (ReadEvent.line s) st) ∧
    session d true (ReadEvent.line s :: rest) st =
      session d true rest { st with cmd_idx := st.cmd_idx + 1 } := by
  obtain ⟨w, r, hs, hw⟩ := h
  have hwD : ∀ c ∈ w, (fun c => decide (c ∈ DELIMS)) c = true := by
    intro c hc
    rcases hw c hc with h1 | h1 <;> subst h1 <;> decide
  have hs' : s.data = w ++ '#' :: r := hs
  have hmem : '#' ∈ s.data := by
    rw [hs']
    exact List.mem_append_right _ (List.mem_cons_self _ _)
  have hcc : check_for_comments (some s) = 1 := by
    simp [check_for_comments, hmem]
  have hhc : handle_comments s = String.mk w := by
    simp [handle_comments, hs', takeWhile_until_hash w r hw]
  have hrc : read_and_handle_comments (ReadEvent.line s) =
      (some (String.mk w), 1) := by
    simp [read_and_handle_comments, hcc, hhc]
  have hop : check_for_operator (String.mk w) = none := by
    simp [check_for_operator, splitOps_ws w hw]
  have htok : tokenize_command (String.mk w) DELIMS true = none := by
    simp [tokenize_command, splitRuns_all_delim (fun c => decide (c ∈ DELIMS)) w hwD]
  have hexec : handle_command_exec d true (String.mk w)
      { st with cmd_idx := st.cmd_idx + 1 } =
      (StepOut.cont { st with cmd_idx := st.cmd_idx + 1 },
        [Ev.opCheck, Ev.tokenizeStage]) := by
    simp [handle_command_exec, hop, htok]
  refine ⟨hcc, ?_, ?_, ?_⟩
  · rw [hrc]; simp
  · intro toks
    simp [lineTrace, hrc, hexec]
  · simp [session, hrc, hexec]

/-- Witness for C1 at the concrete comment-only line of a space followed
by a hash comment. -/
theorem comment_only_line_continues_witness :
    session dSeven true [ReadEvent.line " # note"] st0 =
      Outcome.outOfInput ⟨0, 1, [], false, true⟩ := by
  have h := (comment_only_line_continues dSeven [] st0 " # note"
    ⟨[' '], [' ', 'n', 'o', 't', 'e'], rfl, by decide⟩).2.2.2
  simpa [session, st0] using h

/-- C2: chain gating — after `;` the next segment always runs; after `&&`
it runs exactly when the preceding exit status is 0; after `||` exactly
when it is non-zero; a closed gate skips the segment without running it;
and when a gated segment runs, the status its dispatch actually produces
becomes the state gating the rest of the chain. -/
theorem chain_gate_semantics (d : Dispatch) (allocOk : Bool) (op : ChainOp)
    (seg : List Char) (rest : List (ChainOp × List Char))
    (st : SessionState) :
    gate ChainOp.seq st.exit_status = true ∧
    (gate ChainOp.andOp st.exit_status = true ↔ st.exit_status = 0) ∧
    (gate ChainOp.orOp st.exit_status = true ↔ st.exit_status ≠ 0) ∧
    (gate op st.exit_status = false →
      run_chain d allocOk ((op, seg) :: rest) st =
        run_chain d allocOk rest st) ∧
    (∀ (toks : List String) (s : Int) (e : EnvTable),
      tokenize_command (String.mk seg) DELIMS allocOk = some toks →
      d toks st = DispatchResult.cont s e →
      gate op st.exit_status = true →
      run_chain d allocOk ((op, seg) :: rest) st =
        ((run_chain d allocOk rest
            { st with exit_status := s, env := e }).1,
          Ev.tokenizeStage :: Ev.dispatch toks ::
            (run_chain d allocOk rest
              { st with exit_status := s, env := e }).2)) := by
  refine ⟨rfl, by simp [gate], by simp [gate], ?_, ?_⟩
  · intro hg
    simp [run_chain, hg]
  · intro toks s e h1 h2 h3
    simp [run_chain, h3, run_segment, h1, process_command, h2]

/-- Witness for C2: an `&&` chain after a successful first status, with a
dispatcher that returns status 7, executes the gated segment and feeds the
produced state onward. -/
theorem chain_gate_semantics_witness :
    run_chain dSeven true [(ChainOp.andOp, ['l', 's'])] st0 =
      (StepOut.cont ⟨7, 0, [], false, true⟩,
        [Ev.tokenizeStage, Ev.dispatch ["ls"]]) := by
  have h := (chain_gate_semantics dSeven true ChainOp.andOp ['l', 's'] []
    st0).2.2.2.2 ["ls"] 7 [] rfl rfl rfl
  simpa [run_chain, st0] using h

/-- Discipline of the per-segment part of a trace: a concatenation of
units, each a tokenize event optionally followed by the dispatch of the
vector that the tokenization produced. -/
inductive Units : List Ev → Prop where
  | nil : Units []
  | skip : ∀ {r : List Ev}, Units r → Units (Ev.tokenizeStage :: r)
  | run : ∀ {r : List Ev} (toks : List String), Units r →
      Units (Ev.tokenizeStage :: Ev.dispatch toks :: r)

/-- Unit traces are closed under concatenation. -/
theorem units_append {a b : List Ev} (ha : Units a) (hb : Units b) :
    Units (a ++ b) := by
  induction ha with
  | nil => simpa using hb
  | skip _ ih => exact .skip ih
  | run toks _ ih => exact .run toks ih

/-- The trace of one segment run is a single unit. -/
theorem run_segment_units (d : Dispatch) (allocOk : Bool) (seg : List Char)
    (st : SessionState) : Units (run_segment d allocOk seg st).2 := by
  cases htok : tokenize_command (String.mk seg) DELIMS allocOk with
  | none =>
    simp [run_segment, htok]
    exact .skip .nil
  | some toks =>
    simp [run_segment, htok]
    exact .run toks .nil

/-- The trace of a gated chain run is a concatenation of units. -/
theorem run_chain_units (d : Dispatch) (allocOk : Bool)
    (chain : List (ChainOp × List Char)) :
    ∀ st, Units (run_chain d allocOk chain st).2 := by
  induction chain with
  | nil => intro st; exact .nil
  | cons pr rest ih =>
    intro st
    obtain ⟨op, seg⟩ := pr
    by_cases hg : gate op st.exit_status = true
    · have hu := run_segment_units d allocOk seg st
      rcases hseg : run_segment d allocOk seg st with ⟨r, evs⟩
      rw [hseg] at hu
      cases r with
      | exited c => simpa [run_chain, hg, hseg] using hu
      | cont st' =>
        simp only [run_chain, hg, hseg, if_true]
        exact units_append hu (ih st')
    · simp only [run_chain, if_neg hg]
      exact ih st

/-- The trace of `handle_operators` is a concatenation of units. -/
theorem handle_operators_units (d : Dispatch) (allocOk : Bool) (l : String)
    (st : SessionState) : Units (handle_operators d allocOk l st).2 := by
  unfold handle_operators
  by_cases hse : chain_syntax_error (splitOps l.toList).1
      (splitOps l.toList).2 = true
  · rw [if_pos hse]
    exact .nil
  · rw [if_neg hse]
    have hu := run_segment_units d allocOk (splitOps l.toList).1 st
    rcases hseg : run_segment d allocOk (splitOps l.toList).1 st with ⟨r, evs⟩
    rw [hseg] at hu
    cases r with
    | exited c => simpa using hu
    | cont st' =>
      exact units_append (by simpa using hu) (run_chain_units d allocOk _ st')

/-- The trace of `handle_command_exec` is the operator check followed by
segment units. -/
theorem handle_command_exec_trace (d : Dispatch) (allocOk : Bool)
    (l : String) (st : SessionState) :
    ∃ t, (handle_command_exec d allocOk l st).2 = Ev.opCheck :: t ∧
      Units t := by
  cases hop : check_for_operator l with
  | none =>
    cases htok : tokenize_command l DELIMS allocOk with
    | none =>
      exact ⟨[Ev.tokenizeStage], by simp [handle_command_exec, hop, htok],
        .skip .nil⟩
    | some cmd =>
      exact ⟨[Ev.tokenizeStage, Ev.dispatch cmd],
        by simp [handle_command_exec, hop, htok], .run cmd .nil⟩
  | some op =>
    exact ⟨(handle_operators d allocOk l st).2,
      by simp [handle_command_exec, hop],
      handle_operators_units d allocOk l st⟩

/-- C6: the stages run in a fixed deterministic order — the trace of every
read event begins with the Comment Filter; a non-NULL line's trace then
has the operator check first, followed by per-segment units in which
tokenization precedes any dispatch of the vector it produced; and the
state a processed line produces (carrying the exit status dispatch
returned) is the input of the rest of the session loop. -/
theorem pipeline_stage_order (d : Dispatch) (allocOk : Bool) :
    (∀ (ev : ReadEvent) (st : SessionState),
      (lineTrace d allocOk ev st).head? = some Ev.filterStage) ∧
    (∀ (l : String) (st : SessionState),
      ∃ t, (handle_command_exec d allocOk l st).2 = Ev.opCheck :: t ∧
        Units t) ∧
    (∀ (s : String) (rest : List ReadEvent) (st : SessionState)
      (l : String) (st' : SessionState) (evs : List Ev),
      (read_and_handle_comments (ReadEvent.line s)).1 = some l →
      handle_command_exec d allocOk l { st with cmd_idx := st.cmd_idx + 1 } =
        (StepOut.cont st', evs) →
      session d allocOk (ReadEvent.line s :: rest) st =
        session d allocOk rest st') := by
  refine ⟨?_, handle_command_exec_trace d allocOk, ?_⟩
  · intro ev st
    simp [lineTrace]
  · intro s rest st l st' evs h1 h2
    rcases hrc : read_and_handle_comments (ReadEvent.line s) with ⟨c, ic⟩
    rw [hrc] at h1
    simp at h1
    subst h1
    simp [session, hrc, h2]

/-- Witness for C6: a concrete one-command line processed through the full
pipeline, the produced state feeding the (empty) remainder of the
session. -/
theorem pipeline_stage_order_witness :
    session dSeven true [ReadEvent.line "echo"] st0 =
      Outcome.outOfInput ⟨7, 1, [], false, true⟩ := by
  have h := (pipeline_stage_order dSeven true).2.2 "echo" [] st0 "echo"
    ⟨7, 1, [], false, true⟩
    [Ev.opCheck, Ev.tokenizeStage, Ev.dispatch ["echo"]] rfl rfl
  simpa [session, st0] using h

/-- The character list underlying a string built from a character list. -/
theorem toList_mk (l : List Char) : (String.mk l).toList = l := rfl

/-- A delimiter step of the fold opens a new empty front group. -/
theorem addChar_delim (isD : Char → Bool) (c : Char)
    (acc : List (List Char)) (hd : isD c = true) :
    addChar isD c acc = [] :: acc := by
  unfold addChar
  rw [if_pos hd]

/-- A non-delimiter step of the fold on the empty accumulator starts the
first group. -/
theorem addChar_nondelim_nil (isD : Char → Bool) (c : Char)
    (hd : ¬(isD c = true)) : addChar isD c [] = [[c]] := by
  unfold addChar
  rw [if_neg hd]

/-- A non-delimiter step of the fold extends the front group. -/
theorem addChar_nondelim_cons (isD : Char → Bool) (c : Char)
    (g : List Char) (gs : List (List Char)) (hd : ¬(isD c = true)) :
    addChar isD c (g :: gs) = (c :: g) :: gs := by
  unfold addChar
  rw [if_neg hd]

/-- Seeding the fold with one trailing empty group either appends that
empty group to the result or is absorbed into it. -/
theorem foldr_addChar_seed (isD : Char → Bool) (cs : List Char) :
    cs.foldr (addChar isD) [[]] = cs.foldr (addChar isD) [] ++ [[]] ∨
    cs.foldr (addChar isD) [[]] = cs.foldr (addChar isD) [] := by
  induction cs with
  | nil => left; rfl
  | cons c cs ih =>
    rcases ih with h | h
    · by_cases hd : isD c = true
      · left
        rw [List.foldr_cons, List.foldr_cons, h,
          addChar_delim isD c _ hd, addChar_delim isD c _ hd]
        rfl
      · rcases hF : cs.foldr (addChar isD) [] with _ | ⟨g, gs⟩
        · right
          rw [hF, List.nil_append] at h
          rw [List.foldr_cons, List.foldr_cons, h, hF,
            addChar_nondelim_nil isD c hd,
            addChar_nondelim_cons isD c _ _ hd]
        · left
          rw [hF, List.cons_append] at h
          rw [List.foldr_cons, List.foldr_cons, h, hF,
            addChar_nondelim_cons isD c _ _ hd,
            addChar_nondelim_cons isD c _ _ hd]
          rfl
    · right
      simp only [List.foldr_cons, h]

/-- A delimiter-free non-empty token folded onto an accumulator headed by
an empty group becomes one group. -/
theorem foldr_addChar_token (isD : Char → Bool) (t : List Char)
    (acc : List (List Char)) (htd : ∀ c ∈ t, isD c = false) :
    t ≠ [] → t.foldr (addChar isD) ([] :: acc) = t :: acc := by
  induction t with
  | nil => intro h; exact absurd rfl h
  | cons c t ih =>
    intro _
    have hc : ¬(isD c = true) := by
      simp [htd c (List.mem_cons_self _ _)]
    cases t with
    | nil =>
      simp only [List.foldr_cons, List.foldr_nil]
      unfold addChar
      rw [if_neg hc]
    | cons c2 t2 =>
      rw [List.foldr_cons,
        ih (fun x hx => htd x (List.mem_cons_of_mem _ hx)) (by simp)]
      unfold addChar
      rw [if_neg hc]

/-- A delimiter-free non-empty token folded onto the empty accumulator is
the single group. -/
theorem foldr_addChar_single (isD : Char → Bool) (t : List Char)
    (htd : ∀ c ∈ t, isD c = false) :
    t ≠ [] → t.foldr (addChar isD) [] = [t] := by
  induction t with
  | nil => intro h; exact absurd rfl h
  | cons c t ih =>
    intro _
    have hc : ¬(isD c = true) := by
      simp [htd c (List.mem_cons_self _ _)]
    cases t with
    | nil =>
      simp only [List.foldr_cons, List.foldr_nil]
      unfold addChar
      rw [if_neg hc]
    | cons c2 t2 =>
      rw [List.foldr_cons,
        ih (fun x hx => htd x (List.mem_cons_of_mem _ hx)) (by simp)]
      unfold addChar
      rw [if_neg hc]

/-- A delimiter at the front of the segment is dropped by the run
splitter. -/
theorem splitRuns_delim_cons (isD : Char → Bool) (dc : Char)
    (cs : List Char) (hd : isD dc = true) :
    splitRuns isD (dc :: cs) = splitRuns isD cs := by
  unfold splitRuns
  simp only [List.foldr_cons]
  unfold addChar
  rw [if_pos hd]
  simp [List.filter_cons]

/-- A non-empty delimiter-free token followed by a delimiter is peeled off
as the next token of the split. -/
theorem splitRuns_token_delim (isD : Char → Bool) (t : List Char)
    (dc : Char) (cs : List Char) (ht : t ≠ [])
    (htd : ∀ c ∈ t, isD c = false) (hd : isD dc = true) :
    splitRuns isD (t ++ dc :: cs) = t :: splitRuns isD cs := by
  unfold splitRuns
  rw [List.foldr_append]
  simp only [List.foldr_cons]
  rw [show addChar isD dc (cs.foldr (addChar isD) []) =
      [] :: cs.foldr (addChar isD) [] from by unfold addChar; rw [if_pos hd]]
  rw [foldr_addChar_token isD t _ htd ht, List.filter_cons,
    if_pos (show (!t.isEmpty) = true from by
      cases t with
      | nil => exact absurd rfl ht
      | cons _ _ => rfl)]

/-- A non-empty delimiter-free segment is the single token of its split. -/
theorem splitRuns_single_token (isD : Char → Bool) (t : List Char)
    (ht : t ≠ []) (htd : ∀ c ∈ t, isD c = false) :
    splitRuns isD t = [t] := by
  unfold splitRuns
  rw [foldr_addChar_single isD t htd ht, List.filter_cons,
    if_pos (show (!t.isEmpty) = true from by
      cases t with
      | nil => exact absurd rfl ht
      | cons _ _ => rfl)]
  rfl

/-- A trailing newline character never changes the split. -/
theorem splitRuns_app_newline (isD : Char → Bool) (cs : List Char)
    (hd : isD '\n' = true) :
    splitRuns isD (cs ++ ['\n']) = splitRuns isD cs := by
  unfold splitRuns
  rw [List.foldr_append]
  simp only [List.foldr_cons, List.foldr_nil]
  rw [show addChar isD '\n' [] = [[]] from by unfold addChar; rw [if_pos hd]]
  rcases foldr_addChar_seed isD cs with h | h
  · rw [h, List.filter_append]
    simp
  · rw [h]

/-- A produced TokenVector is never empty. -/
theorem tokenize_some_ne_nil (s : String) (delims : List Char)
    (aOk : Bool) (v : List String)
    (h : tokenize_command s delims aOk = some v) : v ≠ [] := by
  unfold tokenize_command at h
  cases aOk with
  | false => simp at h
  | true =>
    simp only [Bool.not_true, Bool.false_eq_true, if_false] at h
    split at h
    · exact absurd h (by simp)
    · next he =>
      cases h
      intro hnil
      exact he (by rw [hnil]; rfl)

/-- A dispatch event of a segment run carries a non-empty vector. -/
theorem run_segment_dispatch_ne_nil (d : Dispatch) (aOk : Bool)
    (seg : List Char) (st : SessionState) (toks : List String)
    (h : Ev.dispatch toks ∈ (run_segment d aOk seg st).2) : toks ≠ [] := by
  unfold run_segment at h
  cases htok : tokenize_command (String.mk seg) DELIMS aOk with
  | none => rw [htok] at h; simp at h
  | some t2 =>
    rw [htok] at h
    simp at h
    subst h
    exact tokenize_some_ne_nil (String.mk seg) DELIMS aOk toks htok

/-- A dispatch event of a chain run carries a non-empty vector. -/
theorem run_chain_dispatch_ne_nil (d : Dispatch) (aOk : Bool)
    (chain : List (ChainOp × List Char)) :
    ∀ st toks, Ev.dispatch toks ∈ (run_chain d aOk chain st).2 →
      toks ≠ [] := by
  induction chain with
  | nil =>
    intro st toks h
    simp [run_chain] at h
  | cons pr rest ih =>
    intro st toks h
    obtain ⟨op, seg⟩ := pr
    by_cases hg : gate op st.exit_status = true
    · rw [run_chain, if_pos hg] at h
      rcases hseg : run_segment d aOk seg st with ⟨r, evs⟩
      rw [hseg] at h
      cases r with
      | exited c =>
        exact run_segment_dispatch_ne_nil d aOk seg st toks
          (by rw [hseg]; simpa using h)
      | cont st' =>
        simp at h
        rcases h with h | h
        · exact run_segment_dispatch_ne_nil d aOk seg st toks
            (by rw [hseg]; simpa using h)
        · exact ih st' toks h
    · rw [run_chain, if_neg hg] at h
      exact ih st toks h

/-- A dispatch event of `handle_operators` carries a non-empty vector. -/
theorem handle_operators_dispatch_ne_nil (d : Dispatch) (aOk : Bool)
    (l : String) (st : SessionState) (toks : List String)
    (h : Ev.dispatch toks ∈ (handle_operators d aOk l st).2) :
    toks ≠ [] := by
  unfold handle_operators at h
  by_cases hse : chain_syntax_error (splitOps l.toList).1
      (splitOps l.toList).2 = true
  · rw [if_pos hse] at h
    simp at h
  · rw [if_neg hse] at h
    rcases hseg : run_segment d aOk (splitOps l.toList).1 st with ⟨r, evs⟩
    rw [hseg] at h
    cases r with
    | exited c =>
      exact run_segment_dispatch_ne_nil d aOk _ st toks
        (by rw [hseg]; simpa using h)
    | cont st' =>
      simp at h
      rcases h with h | h
      · exact run_segment_dispatch_ne_nil d aOk _ st toks
          (by rw [hseg]; simpa using h)
      · exact run_chain_dispatch_ne_nil d aOk _ st' toks h

/-- A dispatch event of `handle_command_exec` carries a non-empty
vector. -/
theorem handle_command_exec_dispatch_ne_nil (d : Dispatch) (aOk : Bool)
    (l : String) (st : SessionState) (toks : List String)
    (h : Ev.dispatch toks ∈ (handle_command_exec d aOk l st).2) :
    toks ≠ [] := by
  cases hop : check_for_operator l with
  | some op =>
    rw [handle_command_exec] at h
    rw [hop] at h
    simp at h
    exact handle_operators_dispatch_ne_nil d aOk l st toks h
  | none =>
    cases htok : tokenize_command l DELIMS aOk with
    | none =>
      rw [handle_command_exec] at h
      rw [hop, htok] at h
      simp at h
    | some cmd =>
      rw [handle_command_exec] at h
      rw [hop, htok] at h
      simp at h
      subst h
      exact tokenize_some_ne_nil l DELIMS aOk toks htok

/-- C7: the Tokenizer splits on runs of the delimiters of src/main.c
(space, tab, newline): a leading delimiter is dropped, a delimiter-free
token followed by a delimiter is peeled off as the next token, a lone
delimiter-free token forms the single-token split, a trailing newline
never changes the result; an empty or whitespace-only segment yields no
TokenVector; and every token vector carried by a dispatch event of the
pipeline is non-empty. -/
theorem tokenizer_properties (d : Dispatch) (aOk : Bool) :
    (∀ (w : List Char), (∀ c ∈ w, c = ' ' ∨ c = '\t') →
      tokenize_command (String.mk w) DELIMS true = none) ∧
    (∀ (cs : List Char),
      tokenize_command (String.mk (cs ++ ['\n'])) DELIMS true =
        tokenize_command (String.mk cs) DELIMS true) ∧
    (∀ (s : String) (v : List String),
      tokenize_command s DELIMS aOk = some v → v ≠ []) ∧
    (∀ (dc : Char) (cs : List Char), DELIMS.contains dc = true →
      splitRuns (fun c => DELIMS.contains c) (dc :: cs) =
        splitRuns (fun c => DELIMS.contains c) cs) ∧
    (∀ (t : List Char) (dc : Char) (cs : List Char), t ≠ [] →
      (∀ c ∈ t, DELIMS.contains c = false) → DELIMS.contains dc = true →
      splitRuns (fun c => DELIMS.contains c) (t ++ dc :: cs) =
        t :: splitRuns (fun c => DELIMS.contains c) cs) ∧
    (∀ (t : List Char), t ≠ [] → (∀ c ∈ t, DELIMS.contains c = false) →
      splitRuns (fun c => DELIMS.contains c) t = [t]) ∧
    (∀ (l : String) (st : SessionState) (toks : List String),
      Ev.dispatch toks ∈ (handle_command_exec d aOk l st).2 →
        toks ≠ []) := by
  refine ⟨?_, ?_, fun s v h => tokenize_some_ne_nil s DELIMS aOk v h,
    fun dc cs hd => splitRuns_delim_cons _ dc cs hd,
    fun t dc cs ht htd hd => splitRuns_token_delim _ t dc cs ht htd hd,
    fun t ht htd => splitRuns_single_token _ t ht htd,
    fun l st toks h =>
      handle_command_exec_dispatch_ne_nil d aOk l st toks h⟩
  · intro w hw
    have hwD : ∀ c ∈ w, (fun c => decide (c ∈ DELIMS)) c = true := by
      intro c hc
      rcases hw c hc with h1 | h1 <;> subst h1 <;> decide
    simp [tokenize_command,
      splitRuns_all_delim (fun c => decide (c ∈ DELIMS)) w hwD]
  · intro cs
    simp only [tokenize_command, toList_mk,
      splitRuns_app_newline (fun c => DELIMS.contains c) cs (by decide)]

/-- Witness for C7: the token `ls` followed by a space is peeled off as
the first token of a concrete split. -/
theorem tokenizer_properties_witness :
    splitRuns (fun c => DELIMS.contains c)
        (['l', 's'] ++ ' ' :: ['-', 'a']) =
      ['l', 's'] :: splitRuns (fun c => DELIMS.contains c) ['-', 'a'] :=
  (tokenizer_properties dSeven true).2.2.2.2.1 ['l', 's'] ' ' ['-', 'a']
    (by decide) (by decide) (by decide)

/-- With the allocation oracle failing, every segment of a chain is
skipped: the state comes back unchanged and no dispatch event occurs. -/
theorem run_chain_alloc_fail (d : Dispatch)
    (chain : List (ChainOp × List Char)) :
    ∀ st, (run_chain d false chain st).1 = StepOut.cont st ∧
      ∀ toks, Ev.dispatch toks ∉ (run_chain d false chain st).2 := by
  induction chain with
  | nil =>
    intro st
    exact ⟨rfl, by simp [run_chain]⟩
  | cons pr rest ih =>
    intro st
    obtain ⟨op, seg⟩ := pr
    have hseg : run_segment d false seg st =
        (StepOut.cont st, [Ev.tokenizeStage]) := rfl
    by_cases hg : gate op st.exit_status = true
    · rw [run_chain, if_pos hg, hseg]
      rcases ih st with ⟨ih1, ih2⟩
      refine ⟨by simpa using ih1, fun toks => ?_⟩
      simpa using ih2 toks
    · rw [run_chain, if_neg hg]
      exact ih st

/-- C8: an allocation failure in the tokenize stage of the pipeline makes
the command line be skipped: no dispatch event is produced, the pipeline
never exits the shell, and for an operator-free line the state is returned
untouched. -/
theorem alloc_failure_skips_line (d : Dispatch) (l : String)
    (st : SessionState) :
    (∀ toks, Ev.dispatch toks ∉ (handle_command_exec d false l st).2) ∧
    (∀ c, (handle_command_exec d false l st).1 ≠ StepOut.exited c) ∧
    (check_for_operator l = none →
      handle_command_exec d false l st =
        (StepOut.cont st, [Ev.opCheck, Ev.tokenizeStage])) := by
  cases hop : check_for_operator l with
  | none =>
    have hexec : handle_command_exec d false l st =
        (StepOut.cont st, [Ev.opCheck, Ev.tokenizeStage]) := by
      unfold handle_command_exec
      rw [hop]
      rfl
    refine ⟨fun toks => ?_, fun c => ?_, fun _ => hexec⟩
    · rw [hexec]
      simp
    · rw [hexec]
      simp
  | some op =>
    have hce : handle_command_exec d false l st =
        ((handle_operators d false l st).1,
          Ev.opCheck :: (handle_operators d false l st).2) := by
      unfold handle_command_exec
      rw [hop]
    by_cases hse : chain_syntax_error (splitOps l.toList).1
        (splitOps l.toList).2 = true
    · have ho : handle_operators d false l st =
          (StepOut.cont { st with exit_status := 2 }, []) := by
        unfold handle_operators
        rw [if_pos hse]
      refine ⟨fun toks => ?_, fun c => ?_, fun hcontra => ?_⟩
      · rw [hce, ho]
        simp
      · rw [hce, ho]
        simp
      · exact Option.noConfusion hcontra
    · have hseg : run_segment d false (splitOps l.toList).1 st =
          (StepOut.cont st, [Ev.tokenizeStage]) := rfl
      have ho : handle_operators d false l st =
          ((run_chain d false (splitOps l.toList).2 st).1,
            Ev.tokenizeStage ::
              (run_chain d false (splitOps l.toList).2 st).2) := by
        unfold handle_operators
        rw [if_neg hse, hseg]
        rfl
      rcases run_chain_alloc_fail d (splitOps l.toList).2 st with ⟨hc1, hc2⟩
      refine ⟨fun toks => ?_, fun c => ?_, fun hcontra => ?_⟩
      · rw [hce, ho]
        simpa using hc2 toks
      · rw [hce, ho]
        simp only [hc1]
        simp
      · exact Option.noConfusion hcontra

/-- Witness for C8 at the operator-free line `ls`: the tokenize-stage
allocation failure returns the state untouched with no dispatch. -/
theorem alloc_failure_skips_line_witness :
    handle_command_exec dSeven false "ls" st0 =
      (StepOut.cont st0, [Ev.opCheck, Ev.tokenizeStage]) :=
  (alloc_failure_skips_line dSeven "ls" st0).2.2 rfl

/-- C5: a failed environment set or unset reports exit status 2 (the
value `print_env_error` returns), leaves the Environment Table exactly as
it was — no partially applied entry — and does not terminate the session
loop: the session goes on to the next read event with status 2 and the
environment unchanged. -/
theorem env_failure_safe (t : EnvTable) (n v sh : String) (i : Nat)
    (cmd : List String) :
    (env_set t n v false cmd sh i).1 = t ∧
    (env_set t n v false cmd sh i).2 = 2 ∧
    (env_unset t n false cmd sh i).1 = t ∧
    (env_unset t n false cmd sh i).2 = 2 ∧
    (∀ (rest : List ReadEvent) (st : SessionState),
      session (env_dispatch false sh) true
          (ReadEvent.line "setenv A B" :: rest) st =
        session (env_dispatch false sh) true rest
          { st with cmd_idx := st.cmd_idx + 1, exit_status := 2 }) := by
  refine ⟨rfl, rfl, rfl, rfl, ?_⟩
  intro rest st
  have h1 : read_and_handle_comments (ReadEvent.line "setenv A B") =
      (some "setenv A B", 0) := rfl
  have h4 : handle_command_exec (env_dispatch false sh) true "setenv A B"
      { st with cmd_idx := st.cmd_idx + 1 } =
      (StepOut.cont
          { st with cmd_idx := st.cmd_idx + 1, exit_status := 2 },
        [Ev.opCheck, Ev.tokenizeStage,
          Ev.dispatch ["setenv", "A", "B"]]) := rfl
  simp only [session, h1, h4]

end SimpleShell
